import Mathlib

/-!
Verification of the Prometheus recorder/renderer core
(`src/metrics-exporter-prometheus/src/recorder.rs`).

The Rust code is shallowly embedded: the registry enumeration
(`registry.get_handles()`) is a list of `(CompositeKey, generation, Handle)`
entries, the recency filter and the distribution-configuration resolver are
function parameters (they are external primitives per the design), Rust
`HashMap`s are association lists (iteration order is unspecified in the
source, the list order stands for one admissible order), `u64` is `Nat`,
and `f64` is `Rat` (every finite binary float is an exact rational); the
only operation the renderer applies to numbers is `Display`, modelled by
`natRepr` / `fmtF64` below.  Panics (`expect`) are modelled by `Option`.
-/

namespace MetricsProm

/-- Kinds of metrics, from `metrics_util::MetricKind`. -/
inductive MetricKind where
  | counter
  | gauge
  | histogram
deriving DecidableEq, Repr

/-- Identity of a series as given by the caller: name and ordered label
pairs, from `metrics::Key`. -/
structure Key where
  name : String
  labels : List (String × String)
deriving DecidableEq, Repr

/-- Pair of kind and key, from `metrics_util::CompositeKey`. -/
abbrev CompositeKey := MetricKind × Key

/-- Kind-specific atomic storage, from `metrics_util::Handle`: a counter
holds a `u64`, a gauge an `f64`, a histogram a buffer of recorded `u64`
samples. -/
inductive Handle where
  | counter (value : Nat)
  | gauge (value : Rat)
  | histogram (samples : List Nat)
deriving DecidableEq, Repr

/-- Reading the counter cell (`handle.read_counter()`); only applied to
counter handles. -/
def readCounter : Handle → Nat
  | .counter v => v
  | _ => 0

/-- Reading the gauge cell (`handle.read_gauge()`); only applied to gauge
handles. -/
def readGauge : Handle → Rat
  | .gauge v => v
  | _ => 0

/-- The buffered samples handed to the consumer by
`handle.read_histogram_with_clear`; only applied to histogram handles. -/
def histSamples : Handle → List Nat
  | .histogram s => s
  | _ => []

/-- Decimal digit character. -/
def digitChar (n : Nat) : Char := Char.ofNat (48 + n)

/-- Fuel-driven decimal digit accumulation (units digit first into `acc`). -/
def natDigitsCore : Nat → Nat → List Char → List Char
  | 0, _, acc => acc
  | fuel + 1, n, acc =>
    if n < 10 then digitChar (n % 10) :: acc
    else natDigitsCore fuel (n / 10) (digitChar (n % 10) :: acc)

/-- Decimal rendering of a `u64`, standing in for Rust `Display` on `u64`. -/
def natRepr (n : Nat) : String := String.mk (natDigitsCore (n + 1) n [])

/-- Decimal rendering of a signed integer. -/
def intRepr (i : Int) : String :=
  if i < 0 then "-" ++ natRepr i.natAbs else natRepr i.natAbs

/-- Rendering of an `f64` (modelled as `Rat`), standing in for Rust
`Display` on `f64`.  The exact digits are irrelevant to every claim; what
matters is that the output consists of digits, `-`, `/` only. -/
def fmtF64 (q : Rat) : String :=
  if q.den = 1 then intRepr q.num
  else intRepr q.num ++ "/" ++ natRepr q.den

/-- Replacement of every occurrence of the single character `t` in a
character list with the replacement `rep` (`str::replace` with a
one-character pattern). -/
def replaceChar (t : Char) (rep : List Char) : List Char → List Char
  | [] => []
  | c :: rest => (if c = t then rep else [c]) ++ replaceChar t rep rest

/-- Label value escaping from `key_to_parts`:
`v.replace("\\", "\\\\").replace("\"", "\\\"").replace("\n", "\\n")`. -/
def escapeLabelValue (s : String) : String :=
  String.mk (replaceChar '\n' ['\\', 'n']
    (replaceChar '"' ['\\', '"']
      (replaceChar '\\' ['\\', '\\'] s.data)))

/-- Character class replaced in metric names, from the `sanitize` closure
in `key_to_parts`. -/
def isSanitizeChar (c : Char) : Bool :=
  c = '.' || c = '=' || c = '\x7b' || c = '\x7d' || c = '+' || c = '-'

/-- Metric-name sanitization: `key.name().replace(sanitize, "_")`
(a character-predicate pattern replaces each matching character). -/
def sanitizeName (s : String) : String :=
  String.mk (s.data.map (fun c => if isSanitizeChar c then '_' else c))

/-- Splitting a key into the sanitized name and the list of formatted
`k="escaped v"` label fragments, from `key_to_parts`. -/
def key_to_parts (key : Key) : String × List String :=
  (sanitizeName key.name,
   key.labels.map (fun p => p.1 ++ "=\"" ++ escapeLabelValue p.2 ++ "\""))

/-- Association-list lookup (first match), modelling `HashMap::get`. -/
def lookupA {α β : Type} [DecidableEq α] : List (α × β) → α → Option β
  | [], _ => none
  | (k', v) :: rest, k => if k' = k then some v else lookupA rest k

/-- Association-list upsert: replace the value at `k` in place if present,
append otherwise.  Models `map.entry(k).or_insert(..)` followed by an
assignment of `v`. -/
def setEntry {α β : Type} [DecidableEq α] : List (α × β) → α → β → List (α × β)
  | [], k, v => [(k, v)]
  | (k', v') :: rest, k, v =>
    if k' = k then (k, v) :: rest else (k', v') :: setEntry rest k v

/-- Two-level lookup in a name → label-set → value nested map. -/
def lookup2 {β : Type} (m : List (String × List (List String × β)))
    (n : String) (ls : List String) : Option β :=
  match lookupA m n with
  | none => none
  | some inner => lookupA inner ls

/-- Two-level upsert, modelling
`m.entry(name).or_insert_with(HashMap::new).entry(labels).or_insert(..)`
followed by assignment of `v`. -/
def setNested {β : Type} (m : List (String × List (List String × β)))
    (n : String) (ls : List String) (v : β) : List (String × List (List String × β)) :=
  setEntry m n (setEntry ((lookupA m n).getD []) ls v)

/-- Modelled from the spec (the `Distribution` histogram variant lives in
`src/distribution.rs`, which is not part of the provided sources): fixed
bucket boundaries chosen at creation time, each paired with its cumulative
count, plus a running sum and total count.  Per the spec the configured
boundary list is ascending. -/
structure Hist where
  buckets : List (Rat × Nat)
  sum : Nat
  count : Nat
deriving DecidableEq, Repr

/-- Whether a recorded `u64` sample falls at or under an `f64` boundary. -/
def sampleLe (s : Nat) (b : Rat) : Bool := decide ((s : Rat) ≤ b)

/-- Modelled from the spec: recording a batch increments the count of every
configured boundary at or above each sample and increments sum and count
monotonically; never reset. -/
def Hist.record_samples (h : Hist) (samples : List Nat) : Hist :=
  { buckets := h.buckets.map
      (fun p => (p.1, p.2 + (samples.filter (fun s => sampleLe s p.1)).length)),
    sum := h.sum + samples.foldl (fun a b => a + b) 0,
    count := h.count + samples.length }

/-- Modelled from the spec: a distribution is either a bucketed histogram
or a quantile summary (external sketch plus configured quantile list plus a
running sum); created once per (name, label-set) and retained. -/
inductive Distribution where
  | histogram (h : Hist)
  | summary (sketch : List Nat) (quantiles : List Rat) (sum : Nat)
deriving DecidableEq, Repr

/-- Modelled from the spec: quantile estimation is delegated entirely to
the external sketch; the estimate itself is unconstrained, so it is
modelled abstractly as the maximum recorded sample.  No claim depends on
the estimated value. -/
def valueAtQuantile (sketch : List Nat) (_q : Rat) : Nat :=
  sketch.foldl (fun a b => Nat.max a b) 0

/-- Modelled from the spec: recording a batch feeds each sample into the
sketch and adds to the running sum. -/
def Distribution.record_samples (d : Distribution) (samples : List Nat) : Distribution :=
  match d with
  | .histogram h => .histogram (h.record_samples samples)
  | .summary sketch quantiles s =>
      .summary (sketch ++ samples) quantiles (s + samples.foldl (fun a b => a + b) 0)

/-- Map from name to label-set to accumulated value. -/
abbrev NestedMap (β : Type) := List (String × List (List String × β))

/-- Modelled from the spec (the `Snapshot` struct lives in
`src/common.rs`, which is not part of the provided sources): the three maps
produced by one scrape. -/
structure Snapshot where
  counters : NestedMap Nat
  gauges : NestedMap Rat
  distributions : NestedMap Distribution
deriving DecidableEq, Repr

/-- The mutable state threaded through the snapshot-building pass: the two
local maps of `get_recent_metrics` plus the shared distribution store. -/
structure SnapState where
  counters : NestedMap Nat
  gauges : NestedMap Rat
  dists : NestedMap Distribution
deriving DecidableEq, Repr

/-- One registry entry as yielded by `registry.get_handles()`. -/
abbrev Entry := CompositeKey × Nat × Handle

/-- The histogram branch of the loop body of `get_recent_metrics`: find or
create the distribution for (name, labels) — creation consults the
distribution-configuration resolver and panics (`expect`, modelled as
`none`) when it yields nothing — then record the drained samples into it. -/
def distUpdate (resolver : String → Option Distribution)
    (dists : NestedMap Distribution) (name : String) (labels : List String)
    (samples : List Nat) : Option (NestedMap Distribution) :=
  match lookupA ((lookupA dists name).getD []) labels with
  | some d => some (setNested dists name labels (d.record_samples samples))
  | none =>
      match resolver name with
      | none => none
      | some d0 => some (setNested dists name labels (d0.record_samples samples))

/-- The loop body of `get_recent_metrics` for one registry entry. -/
def snapStep (recency : MetricKind → CompositeKey → Nat → Bool)
    (resolver : String → Option Distribution)
    (st : SnapState) (e : Entry) : Option SnapState :=
  let ck := e.1
  let gen := e.2.1
  let handle := e.2.2
  match ck.1 with
  | .counter =>
      let value := readCounter handle
      if !recency .counter ck gen then some st
      else
        let parts := key_to_parts ck.2
        some { st with counters := setNested st.counters parts.1 parts.2 value }
  | .gauge =>
      let value := readGauge handle
      if !recency .gauge ck gen then some st
      else
        let parts := key_to_parts ck.2
        some { st with gauges := setNested st.gauges parts.1 parts.2 value }
  | .histogram =>
      if !recency .histogram ck gen then some st
      else
        let parts := key_to_parts ck.2
        match distUpdate resolver st.dists parts.1 parts.2 (histSamples handle) with
        | none => none
        | some ds => some { st with dists := ds }

/-- The loop of `get_recent_metrics` over all registry entries; `none`
models the panic on a missing distribution configuration. -/
def snapFold (recency : MetricKind → CompositeKey → Nat → Bool)
    (resolver : String → Option Distribution) :
    List Entry → SnapState → Option SnapState
  | [], st => some st
  | e :: rest, st =>
      match snapStep recency resolver st e with
      | none => none
      | some st' => snapFold recency resolver rest st'

/-- `Inner::get_recent_metrics`: one pass over the registry enumeration
building the counters and gauges maps and updating the distribution store,
then a full clone of the store as the snapshot's distributions map. -/
def get_recent_metrics (recency : MetricKind → CompositeKey → Nat → Bool)
    (resolver : String → Option Distribution)
    (entries : List Entry) (dists0 : NestedMap Distribution) : Option Snapshot :=
  match snapFold recency resolver entries { counters := [], gauges := [], dists := dists0 } with
  | none => none
  | some st => some { counters := st.counters, gauges := st.gauges, distributions := st.dists }

/-- Helper `write_help_line`. -/
def write_help_line (name desc : String) : String :=
  "# HELP " ++ name ++ " " ++ desc ++ "\n"

/-- Helper `write_type_line`. -/
def write_type_line (name metricType : String) : String :=
  "# TYPE " ++ name ++ " " ++ metricType ++ "\n"

/-- Suffix fragment of a sample line (`_bucket`, `_sum`, `_count`, or
nothing). -/
def suffixStr : Option String → String
  | some s => "_" ++ s
  | none => ""

/-- Helper `write_metric_line`.  Rendered numeric values arrive as their
`Display` strings (`value.to_string()` in the source); `additional` is the
optional synthesized label, its value also already displayed. -/
def write_metric_line (name : String) (suffix : Option String)
    (labels : List String) (additional : Option (String × String))
    (value : String) : String :=
  let base := name ++ suffixStr suffix
  let out :=
    if !labels.isEmpty || additional.isSome then
      let pair := labels.foldl
        (fun (acc : String × Bool) label =>
          ((if acc.2 then acc.1 else acc.1 ++ ",") ++ label, false))
        ("", true)
      base ++ "\x7b" ++ pair.1
        ++ (match additional with
            | some kv =>
                (if pair.2 then "" else ",") ++ kv.1 ++ "=\"" ++ kv.2 ++ "\""
            | none => "")
        ++ "\x7d"
    else base
  out ++ " " ++ value ++ "\n"

/-- Rendering of one (label-set, distribution) series inside the
distributions loop of `Inner::render` — note the TYPE line is emitted here,
inside the per-label-set loop, exactly as in the source. -/
def renderDistSeries (name : String) (labels : List String) : Distribution → String
  | .summary sketch quantiles s =>
      write_type_line name "summary"
      ++ quantiles.foldl
          (fun acc q =>
            acc ++ write_metric_line name none labels
              (some ("quantile", fmtF64 q)) (natRepr (valueAtQuantile sketch q)))
          ""
      ++ write_metric_line name (some "sum") labels none (natRepr s)
      ++ write_metric_line name (some "count") labels none (natRepr sketch.length)
  | .histogram h =>
      write_type_line name "histogram"
      ++ h.buckets.foldl
          (fun acc p =>
            acc ++ write_metric_line name (some "bucket") labels
              (some ("le", fmtF64 p.1)) (natRepr p.2))
          ""
      ++ write_metric_line name (some "bucket") labels (some ("le", "+Inf")) (natRepr h.count)
      ++ write_metric_line name (some "sum") labels none (natRepr h.sum)
      ++ write_metric_line name (some "count") labels none (natRepr h.count)

/-- One counter name block of `Inner::render`. -/
def renderCounterBlock (descriptions : List (String × String)) (name : String)
    (byLabels : List (List String × Nat)) : String :=
  (match lookupA descriptions name with
   | some desc => write_help_line name desc
   | none => "")
  ++ write_type_line name "counter"
  ++ byLabels.foldl
      (fun acc p => acc ++ write_metric_line name none p.1 none (natRepr p.2)) ""
  ++ "\n"

/-- One gauge name block of `Inner::render`. -/
def renderGaugeBlock (descriptions : List (String × String)) (name : String)
    (byLabels : List (List String × Rat)) : String :=
  (match lookupA descriptions name with
   | some desc => write_help_line name desc
   | none => "")
  ++ write_type_line name "gauge"
  ++ byLabels.foldl
      (fun acc p => acc ++ write_metric_line name none p.1 none (fmtF64 p.2)) ""
  ++ "\n"

/-- One distribution name block of `Inner::render` (the HELP line is
emitted once per name, the TYPE line inside the per-label-set loop). -/
def renderDistBlock (descriptions : List (String × String)) (name : String)
    (byLabels : List (List String × Distribution)) : String :=
  (match lookupA descriptions name with
   | some desc => write_help_line name desc
   | none => "")
  ++ byLabels.foldl (fun acc p => acc ++ renderDistSeries name p.1 p.2) ""
  ++ "\n"

/-- The pure rendering part of `Inner::render`: Snapshot and Description
Table to the exposition string. -/
def renderSnapshot (descriptions : List (String × String)) (snap : Snapshot) : String :=
  snap.counters.foldl (fun acc p => acc ++ renderCounterBlock descriptions p.1 p.2) ""
  ++ snap.gauges.foldl (fun acc p => acc ++ renderGaugeBlock descriptions p.1 p.2) ""
  ++ snap.distributions.foldl (fun acc p => acc ++ renderDistBlock descriptions p.1 p.2) ""

/-- `Inner::render`: build the snapshot, then render it (`none` models the
panic propagated from `get_recent_metrics`). -/
def render (recency : MetricKind → CompositeKey → Nat → Bool)
    (resolver : String → Option Distribution)
    (entries : List Entry) (dists0 : NestedMap Distribution)
    (descriptions : List (String × String)) : Option String :=
  match get_recent_metrics recency resolver entries dists0 with
  | none => none
  | some snap => some (renderSnapshot descriptions snap)

/-- `PrometheusRecorder::add_description_if_missing`: store the description
under the key's original (unsanitized) name only if none is present and one
was supplied. -/
def add_description_if_missing (descriptions : List (String × String))
    (keyName : String) (description : Option String) : List (String × String) :=
  match description with
  | none => descriptions
  | some d =>
      if (lookupA descriptions keyName).isSome then descriptions
      else descriptions ++ [(keyName, d)]

/-- Tail of a comma-separated join: a leading comma before every item. -/
def prefixedComma : List String → String
  | [] => ""
  | l :: rest => "," ++ l ++ prefixedComma rest

/-- Comma-separated join, the closed form of the label-writing loop of
`write_metric_line`. -/
def joinComma : List String → String
  | [] => ""
  | l :: rest => l ++ prefixedComma rest

/-- Per-character form of the label-value escaping. -/
def escChar (c : Char) : List Char :=
  if c = '\\' then ['\\', '\\']
  else if c = '"' then ['\\', '"']
  else if c = '\n' then ['\\', 'n']
  else [c]

/-- Escaping applied characterwise to a character list. -/
def escList (l : List Char) : List Char :=
  l.foldr (fun c acc => escChar c ++ acc) []

/-- Characters affected by label-value escaping. -/
def isEscapeChar (c : Char) : Bool :=
  c = '\\' || c = '"' || c = '\n'

/-- Whether a string contains any of the characters that metric-name
sanitization replaces. -/
def containsSpecial (s : String) : Bool :=
  s.data.any isSanitizeChar

/-- Key list of an association list. -/
def keysOf {α β : Type} (m : List (α × β)) : List α :=
  m.map Prod.fst

/-- Splitting a character list at newlines. -/
def splitLinesCh : List Char → List Char → List String
  | [], acc => [String.mk acc.reverse]
  | c :: rest, acc =>
      if c = '\n' then String.mk acc.reverse :: splitLinesCh rest []
      else splitLinesCh rest (c :: acc)

/-- Splitting a rendered document into its lines. -/
def splitLines (s : String) : List String := splitLinesCh s.data []


theorem lookupA_setEntry_self {α β : Type} [DecidableEq α] (m : List (α × β)) (k : α) (v : β) :
    lookupA (setEntry m k v) k = some v := by
  induction m with
  | nil => simp [setEntry, lookupA]
  | cons p rest ih =>
      obtain ⟨k', v'⟩ := p
      by_cases h : k' = k
      · simp [setEntry, h, lookupA]
      · simp [setEntry, h, lookupA, ih]

theorem lookupA_setEntry_ne {α β : Type} [DecidableEq α] (m : List (α × β)) (k k' : α) (v : β)
    (h : k' ≠ k) : lookupA (setEntry m k v) k' = lookupA m k' := by
  have h' : k ≠ k' := Ne.symm h
  induction m with
  | nil => simp [setEntry, lookupA, h']
  | cons p rest ih =>
      obtain ⟨k0, v0⟩ := p
      by_cases h0 : k0 = k
      · subst h0
        simp [setEntry, lookupA, h']
      · simp [setEntry, h0, lookupA, ih]

theorem lookup2_setNested_self {β : Type} (m : List (String × List (List String × β)))
    (n : String) (ls : List String) (v : β) :
    lookup2 (setNested m n ls v) n ls = some v := by
  simp [lookup2, setNested, lookupA_setEntry_self]

theorem lookup2_setNested_other {β : Type} (m : List (String × List (List String × β)))
    (n : String) (ls : List String) (v : β) (n' : String) (ls' : List String)
    (h : ¬(n' = n ∧ ls' = ls)) :
    lookup2 (setNested m n ls v) n' ls' = lookup2 m n' ls' := by
  by_cases hn : n' = n
  · subst hn
    have hls : ls' ≠ ls := fun he => h ⟨rfl, he⟩
    simp only [lookup2, setNested, lookupA_setEntry_self, lookupA_setEntry_ne _ _ _ _ hls]
    cases hm : lookupA m n' with
    | none => simp [lookupA]
    | some inner => simp
  · simp only [lookup2, setNested, lookupA_setEntry_ne _ _ _ _ hn]


theorem labelsFold_aux (labels : List String) (acc : String) :
    labels.foldl
      (fun (a : String × Bool) label =>
        ((if a.2 then a.1 else a.1 ++ ",") ++ label, false)) (acc, false)
      = (acc ++ prefixedComma labels, false) := by
  induction labels generalizing acc with
  | nil => simp [prefixedComma]
  | cons l rest ih => simp [List.foldl, prefixedComma, ih, String.append_assoc]

theorem labelsFold (labels : List String) :
    labels.foldl
      (fun (a : String × Bool) label =>
        ((if a.2 then a.1 else a.1 ++ ",") ++ label, false)) ("", true)
      = (joinComma labels, labels.isEmpty) := by
  cases labels with
  | nil => rfl
  | cons l rest =>
      simp only [List.foldl, joinComma, labelsFold_aux, List.isEmpty]
      simp

theorem wml_none_nil (name : String) (sfx : Option String) (v : String) :
    write_metric_line name sfx [] none v = name ++ suffixStr sfx ++ " " ++ v ++ "\n" := by
  simp [write_metric_line]

theorem wml_none_cons (name : String) (sfx : Option String) (labels : List String)
    (v : String) (h : labels ≠ []) :
    write_metric_line name sfx labels none v =
      name ++ suffixStr sfx ++ "\x7b" ++ joinComma labels ++ "\x7d" ++ " " ++ v ++ "\n" := by
  cases labels with
  | nil => exact absurd rfl h
  | cons l rest =>
      simp only [write_metric_line, labelsFold]
      simp [String.append_assoc]

theorem wml_some (name : String) (sfx : Option String) (labels : List String)
    (k av v : String) :
    write_metric_line name sfx labels (some (k, av)) v =
      name ++ suffixStr sfx ++ "\x7b" ++ joinComma labels
        ++ (if labels.isEmpty then "" else ",") ++ k ++ "=\"" ++ av ++ "\""
        ++ "\x7d" ++ " " ++ v ++ "\n" := by
  cases labels with
  | nil =>
      simp only [write_metric_line, labelsFold]
      simp [joinComma, String.append_assoc]
  | cons l rest =>
      simp only [write_metric_line, labelsFold]
      simp [String.append_assoc]


theorem replaceChar_append (t : Char) (rep : List Char) (a b : List Char) :
    replaceChar t rep (a ++ b) = replaceChar t rep a ++ replaceChar t rep b := by
  induction a with
  | nil => simp [replaceChar]
  | cons c rest ih => simp [replaceChar, ih]

theorem escList_cons (c : Char) (rest : List Char) :
    escList (c :: rest) = escChar c ++ escList rest := rfl

theorem escape_chain_head (c : Char) :
    replaceChar '\n' ['\\', 'n']
      (replaceChar '"' ['\\', '"']
        (replaceChar '\\' ['\\', '\\'] [c])) = escChar c := by
  by_cases h1 : c = '\\'
  · subst h1; decide
  · by_cases h2 : c = '"'
    · subst h2; decide
    · by_cases h3 : c = '\n'
      · subst h3; decide
      · simp [replaceChar, h1, h2, h3, escChar]

theorem escape_chain_eq_escList (l : List Char) :
    replaceChar '\n' ['\\', 'n']
      (replaceChar '"' ['\\', '"']
        (replaceChar '\\' ['\\', '\\'] l)) = escList l := by
  induction l with
  | nil => rfl
  | cons c rest ih =>
      have hsplit : c :: rest = [c] ++ rest := rfl
      rw [hsplit, replaceChar_append, replaceChar_append, replaceChar_append,
        escape_chain_head, ih]
      rw [show ([c] ++ rest : List Char) = c :: rest from rfl, escList_cons]

theorem escapeLabelValue_data (s : String) :
    (escapeLabelValue s).data = escList s.data := by
  show (String.mk _).data = _
  rw [escape_chain_eq_escList]

theorem escChar_of_not_escape (c : Char) (h : isEscapeChar c = false) :
    escChar c = [c] := by
  simp only [isEscapeChar, Bool.or_eq_false_iff, decide_eq_false_iff_not] at h
  simp [escChar, h.1.1, h.1.2, h.2]

theorem escList_of_no_escape (l : List Char) (h : ∀ c ∈ l, isEscapeChar c = false) :
    escList l = l := by
  induction l with
  | nil => rfl
  | cons c rest ih =>
      simp only [escList, List.foldr]
      rw [escChar_of_not_escape c (h c (by simp))]
      have := ih (fun c hc => h c (by simp [hc]))
      simp only [escList] at this
      simp [this]

theorem escape_eq_self (s : String) (h : ∀ c ∈ s.data, isEscapeChar c = false) :
    escapeLabelValue s = s := by
  apply String.ext
  rw [escapeLabelValue_data, escList_of_no_escape s.data h]


theorem natDigitsCore_mem (fuel : Nat) :
    ∀ (n : Nat) (acc : List Char) (c : Char), c ∈ natDigitsCore fuel n acc →
      c ∈ acc ∨ ∃ r, r < 10 ∧ c = digitChar r := by
  induction fuel with
  | zero => intro n acc c hc; exact Or.inl hc
  | succ fuel ih =>
      intro n acc c hc
      simp only [natDigitsCore] at hc
      by_cases h : n < 10
      · rw [if_pos h] at hc
        rcases List.mem_cons.mp hc with h1 | h1
        · exact Or.inr ⟨n % 10, Nat.mod_lt _ (by norm_num), h1⟩
        · exact Or.inl h1
      · rw [if_neg h] at hc
        rcases ih _ _ _ hc with h1 | h1
        · rcases List.mem_cons.mp h1 with h2 | h2
          · exact Or.inr ⟨n % 10, Nat.mod_lt _ (by norm_num), h2⟩
          · exact Or.inl h2
        · exact Or.inr h1

theorem digit_not_escape : ∀ r, r < 10 → isEscapeChar (digitChar r) = false := by decide

theorem natRepr_no_escape (n : Nat) : ∀ c ∈ (natRepr n).data, isEscapeChar c = false := by
  intro c hc
  rcases natDigitsCore_mem (n + 1) n [] c hc with h | ⟨r, hr, he⟩
  · simp at h
  · rw [he]; exact digit_not_escape r hr

theorem no_escape_append (a b : String)
    (ha : ∀ c ∈ a.data, isEscapeChar c = false)
    (hb : ∀ c ∈ b.data, isEscapeChar c = false) :
    ∀ c ∈ (a ++ b).data, isEscapeChar c = false := by
  intro c hc
  rw [String.data_append] at hc
  rcases List.mem_append.mp hc with h | h
  · exact ha c h
  · exact hb c h

theorem intRepr_no_escape (i : Int) : ∀ c ∈ (intRepr i).data, isEscapeChar c = false := by
  unfold intRepr
  by_cases h : i < 0
  · rw [if_pos h]
    exact no_escape_append _ _ (by decide) (natRepr_no_escape _)
  · rw [if_neg h]
    exact natRepr_no_escape _

theorem fmtF64_no_escape (q : Rat) : ∀ c ∈ (fmtF64 q).data, isEscapeChar c = false := by
  unfold fmtF64
  by_cases h : q.den = 1
  · rw [if_pos h]; exact intRepr_no_escape _
  · rw [if_neg h]
    exact no_escape_append _ _
      (no_escape_append _ _ (intRepr_no_escape _) (by decide))
      (natRepr_no_escape _)

theorem escape_natRepr (n : Nat) : escapeLabelValue (natRepr n) = natRepr n :=
  escape_eq_self _ (natRepr_no_escape n)

theorem escape_fmtF64 (q : Rat) : escapeLabelValue (fmtF64 q) = fmtF64 q :=
  escape_eq_self _ (fmtF64_no_escape q)

theorem underscore_not_sanitize : isSanitizeChar '_' = false := by decide

theorem sanitizeName_no_special (s : String) :
    containsSpecial (sanitizeName s) = false := by
  simp only [containsSpecial, sanitizeName]
  rw [List.any_eq_false]
  intro c hc
  rcases List.mem_map.mp hc with ⟨c0, _, he⟩
  by_cases h0 : isSanitizeChar c0
  · rw [if_pos h0] at he
    rw [← he]
    simp [underscore_not_sanitize]
  · rw [if_neg h0] at he
    rw [← he]
    simp [h0]

theorem sanitizeName_ne_of_special (orig : String) (h : containsSpecial orig = true)
    (s : String) : sanitizeName s ≠ orig := by
  intro he
  rw [← he] at h
  rw [sanitizeName_no_special] at h
  exact Bool.false_ne_true h


theorem lookup2_eq_getD {β : Type} (m : List (String × List (List String × β)))
    (n : String) (ls : List String) :
    lookup2 m n ls = lookupA ((lookupA m n).getD []) ls := by
  cases h : lookupA m n <;> simp [lookup2, h, lookupA]

theorem distUpdate_lookup (resolver : String → Option Distribution)
    (dists : NestedMap Distribution) (name : String) (labels : List String)
    (samples : List Nat) (ds : NestedMap Distribution)
    (h : distUpdate resolver dists name labels samples = some ds)
    (n : String) (ls : List String) (d : Distribution)
    (hd : lookup2 dists n ls = some d) :
    lookup2 ds n ls = some d ∨
      ∃ batch, lookup2 ds n ls = some (d.record_samples batch) := by
  unfold distUpdate at h
  cases hi : lookupA ((lookupA dists name).getD []) labels with
  | some dOld =>
      rw [hi] at h
      have hds : ds = setNested dists name labels (dOld.record_samples samples) :=
        (Option.some.inj h).symm
      subst hds
      by_cases hn : n = name ∧ ls = labels
      · obtain ⟨hn1, hn2⟩ := hn
        subst hn1; subst hn2
        have hEq : d = dOld := by
          rw [lookup2_eq_getD, hi] at hd
          exact (Option.some.inj hd).symm
        subst hEq
        exact Or.inr ⟨samples, lookup2_setNested_self dists n ls _⟩
      · rw [lookup2_setNested_other dists name labels _ n ls hn]
        exact Or.inl hd
  | none =>
      rw [hi] at h
      cases hr : resolver name with
      | none => rw [hr] at h; cases h
      | some d0 =>
          rw [hr] at h
          have hds : ds = setNested dists name labels (d0.record_samples samples) :=
            (Option.some.inj h).symm
          subst hds
          by_cases hn : n = name ∧ ls = labels
          · obtain ⟨hn1, hn2⟩ := hn
            subst hn1; subst hn2
            rw [lookup2_eq_getD, hi] at hd
            cases hd
          · rw [lookup2_setNested_other dists name labels _ n ls hn]
            exact Or.inl hd


theorem snapStep_dists_evolve (recency : MetricKind → CompositeKey → Nat → Bool)
    (resolver : String → Option Distribution) (st : SnapState) (e : Entry)
    (st' : SnapState) (h : snapStep recency resolver st e = some st')
    (n : String) (ls : List String) (d : Distribution)
    (hd : lookup2 st.dists n ls = some d) :
    lookup2 st'.dists n ls = some d ∨
      ∃ batch, lookup2 st'.dists n ls = some (d.record_samples batch) := by
  obtain ⟨⟨kind, key⟩, gen, hdl⟩ := e
  cases kind with
  | counter =>
      by_cases hr : recency MetricKind.counter (MetricKind.counter, key) gen = true
      · simp only [snapStep, hr, Bool.not_true, Bool.false_eq_true, if_false,
          Option.some.injEq] at h
        rw [← h]
        exact Or.inl hd
      · rw [Bool.not_eq_true] at hr
        simp only [snapStep, hr, Bool.not_false, if_true, Option.some.injEq] at h
        rw [← h]
        exact Or.inl hd
  | gauge =>
      by_cases hr : recency MetricKind.gauge (MetricKind.gauge, key) gen = true
      · simp only [snapStep, hr, Bool.not_true, Bool.false_eq_true, if_false,
          Option.some.injEq] at h
        rw [← h]
        exact Or.inl hd
      · rw [Bool.not_eq_true] at hr
        simp only [snapStep, hr, Bool.not_false, if_true, Option.some.injEq] at h
        rw [← h]
        exact Or.inl hd
  | histogram =>
      by_cases hr : recency MetricKind.histogram (MetricKind.histogram, key) gen = true
      · simp only [snapStep, hr, Bool.not_true, Bool.false_eq_true, if_false] at h
        cases hu : distUpdate resolver st.dists (key_to_parts key).1
            (key_to_parts key).2 (histSamples hdl) with
        | none => rw [hu] at h; cases h
        | some ds =>
            rw [hu] at h
            simp only [Option.some.injEq] at h
            rw [← h]
            exact distUpdate_lookup resolver st.dists _ _ _ ds hu n ls d hd
      · rw [Bool.not_eq_true] at hr
        simp only [snapStep, hr, Bool.not_false, if_true, Option.some.injEq] at h
        rw [← h]
        exact Or.inl hd


theorem snapFold_append (recency : MetricKind → CompositeKey → Nat → Bool)
    (resolver : String → Option Distribution) (l1 l2 : List Entry) (st : SnapState) :
    snapFold recency resolver (l1 ++ l2) st =
      match snapFold recency resolver l1 st with
      | none => none
      | some st' => snapFold recency resolver l2 st' := by
  induction l1 generalizing st with
  | nil => simp [snapFold]
  | cons e rest ih =>
      simp only [List.cons_append, snapFold]
      cases snapStep recency resolver st e with
      | none => rfl
      | some st' => exact ih st'

theorem snapFold_dists_evolve (recency : MetricKind → CompositeKey → Nat → Bool)
    (resolver : String → Option Distribution) (entries : List Entry) :
    ∀ (st st' : SnapState), snapFold recency resolver entries st = some st' →
      ∀ (n : String) (ls : List String) (d : Distribution),
        lookup2 st.dists n ls = some d →
        ∃ batches : List (List Nat), lookup2 st'.dists n ls =
          some (batches.foldl (fun a b => Distribution.record_samples a b) d) := by
  induction entries with
  | nil =>
      intro st st' h n ls d hd
      simp only [snapFold, Option.some.injEq] at h
      exact ⟨[], by rw [← h]; simpa using hd⟩
  | cons e rest ih =>
      intro st st' h n ls d hd
      simp only [snapFold] at h
      cases hs : snapStep recency resolver st e with
      | none => rw [hs] at h; cases h
      | some st1 =>
          rw [hs] at h
          rcases snapStep_dists_evolve recency resolver st e st1 hs n ls d hd with h1 | ⟨batch, h1⟩
          · exact ih st1 st' h n ls d h1
          · rcases ih st1 st' h n ls _ h1 with ⟨batches, h2⟩
            exact ⟨batch :: batches, by simpa using h2⟩


theorem snapStep_stale_skip (recency : MetricKind → CompositeKey → Nat → Bool)
    (resolver : String → Option Distribution) (st : SnapState)
    (kind : MetricKind) (key : Key) (gen : Nat) (hdl : Handle)
    (hk : kind = MetricKind.counter ∨ kind = MetricKind.gauge)
    (hr : recency kind (kind, key) gen = false) :
    snapStep recency resolver st ((kind, key), gen, hdl) = some st := by
  rcases hk with h | h <;> subst h <;>
    simp only [snapStep, hr, Bool.not_false, if_true]

theorem snapStep_counter_fresh (recency : MetricKind → CompositeKey → Nat → Bool)
    (resolver : String → Option Distribution) (st : SnapState)
    (key : Key) (gen : Nat) (hdl : Handle)
    (hr : recency MetricKind.counter (MetricKind.counter, key) gen = true) :
    snapStep recency resolver st ((MetricKind.counter, key), gen, hdl) =
      some { st with counters :=
        (setNested st.counters (key_to_parts key).1 (key_to_parts key).2 (readCounter hdl)) } := by
  simp only [snapStep, hr, Bool.not_true, Bool.false_eq_true, if_false]

theorem snapStep_gauge_fresh (recency : MetricKind → CompositeKey → Nat → Bool)
    (resolver : String → Option Distribution) (st : SnapState)
    (key : Key) (gen : Nat) (hdl : Handle)
    (hr : recency MetricKind.gauge (MetricKind.gauge, key) gen = true) :
    snapStep recency resolver st ((MetricKind.gauge, key), gen, hdl) =
      some { st with gauges :=
        (setNested st.gauges (key_to_parts key).1 (key_to_parts key).2 (readGauge hdl)) } := by
  simp only [snapStep, hr, Bool.not_true, Bool.false_eq_true, if_false]

theorem snapStep_counters_preserve (recency : MetricKind → CompositeKey → Nat → Bool)
    (resolver : String → Option Distribution) (st : SnapState) (e : Entry)
    (st' : SnapState) (h : snapStep recency resolver st e = some st')
    (n : String) (ls : List String)
    (hno : ∀ key gen hdl, e = ((MetricKind.counter, key), gen, hdl) →
      key_to_parts key = (n, ls) →
      recency MetricKind.counter (MetricKind.counter, key) gen = false) :
    lookup2 st'.counters n ls = lookup2 st.counters n ls := by
  obtain ⟨⟨kind, key⟩, gen, hdl⟩ := e
  cases kind with
  | counter =>
      by_cases hr : recency MetricKind.counter (MetricKind.counter, key) gen = true
      · have hp : ¬(key_to_parts key = (n, ls)) := by
          intro hp
          rw [hno key gen hdl rfl hp] at hr
          cases hr
        rw [snapStep_counter_fresh recency resolver st key gen hdl hr] at h
        rw [← Option.some.inj h]
        apply lookup2_setNested_other
        intro hc
        exact hp (by rw [Prod.ext_iff]; exact ⟨hc.1.symm, hc.2.symm⟩)
      · rw [Bool.not_eq_true] at hr
        rw [snapStep_stale_skip recency resolver st _ key gen hdl (Or.inl rfl) hr] at h
        rw [← Option.some.inj h]
  | gauge =>
      by_cases hr : recency MetricKind.gauge (MetricKind.gauge, key) gen = true
      · rw [snapStep_gauge_fresh recency resolver st key gen hdl hr] at h
        rw [← Option.some.inj h]
      · rw [Bool.not_eq_true] at hr
        rw [snapStep_stale_skip recency resolver st _ key gen hdl (Or.inr rfl) hr] at h
        rw [← Option.some.inj h]
  | histogram =>
      by_cases hr : recency MetricKind.histogram (MetricKind.histogram, key) gen = true
      · simp only [snapStep, hr, Bool.not_true, Bool.false_eq_true, if_false] at h
        cases hu : distUpdate resolver st.dists (key_to_parts key).1
            (key_to_parts key).2 (histSamples hdl) with
        | none => rw [hu] at h; cases h
        | some ds =>
            rw [hu] at h
            rw [← Option.some.inj h]
      · rw [Bool.not_eq_true] at hr
        simp only [snapStep, hr, Bool.not_false, if_true] at h
        rw [← Option.some.inj h]

theorem snapFold_counters_absent (recency : MetricKind → CompositeKey → Nat → Bool)
    (resolver : String → Option Distribution) (entries : List Entry)
    (n : String) (ls : List String) :
    ∀ (st st' : SnapState), snapFold recency resolver entries st = some st' →
      (∀ key gen hdl, ((MetricKind.counter, key), gen, hdl) ∈ entries →
        key_to_parts key = (n, ls) →
        recency MetricKind.counter (MetricKind.counter, key) gen = false) →
      lookup2 st'.counters n ls = lookup2 st.counters n ls := by
  induction entries with
  | nil =>
      intro st st' h _
      simp only [snapFold, Option.some.injEq] at h
      rw [← h]
  | cons e rest ih =>
      intro st st' h hall
      simp only [snapFold] at h
      cases hs : snapStep recency resolver st e with
      | none => rw [hs] at h; cases h
      | some st1 =>
          rw [hs] at h
          have h1 := snapStep_counters_preserve recency resolver st e st1 hs n ls
            (fun key gen hdl he hp => hall key gen hdl (by rw [he]; exact List.mem_cons_self _ _) hp)
          rw [ih st1 st' h
            (fun key gen hdl hm hp => hall key gen hdl (List.mem_cons_of_mem _ hm) hp), h1]


theorem snapStep_gauges_preserve (recency : MetricKind → CompositeKey → Nat → Bool)
    (resolver : String → Option Distribution) (st : SnapState) (e : Entry)
    (st' : SnapState) (h : snapStep recency resolver st e = some st')
    (n : String) (ls : List String)
    (hno : ∀ key gen hdl, e = ((MetricKind.gauge, key), gen, hdl) →
      key_to_parts key = (n, ls) →
      recency MetricKind.gauge (MetricKind.gauge, key) gen = false) :
    lookup2 st'.gauges n ls = lookup2 st.gauges n ls := by
  obtain ⟨⟨kind, key⟩, gen, hdl⟩ := e
  cases kind with
  | gauge =>
      by_cases hr : recency MetricKind.gauge (MetricKind.gauge, key) gen = true
      · have hp : ¬(key_to_parts key = (n, ls)) := by
          intro hp
          rw [hno key gen hdl rfl hp] at hr
          cases hr
        rw [snapStep_gauge_fresh recency resolver st key gen hdl hr] at h
        rw [← Option.some.inj h]
        apply lookup2_setNested_other
        intro hc
        exact hp (by rw [Prod.ext_iff]; exact ⟨hc.1.symm, hc.2.symm⟩)
      · rw [Bool.not_eq_true] at hr
        rw [snapStep_stale_skip recency resolver st _ key gen hdl (Or.inr rfl) hr] at h
        rw [← Option.some.inj h]
  | counter =>
      by_cases hr : recency MetricKind.counter (MetricKind.counter, key) gen = true
      · rw [snapStep_counter_fresh recency resolver st key gen hdl hr] at h
        rw [← Option.some.inj h]
      · rw [Bool.not_eq_true] at hr
        rw [snapStep_stale_skip recency resolver st _ key gen hdl (Or.inl rfl) hr] at h
        rw [← Option.some.inj h]
  | histogram =>
      by_cases hr : recency MetricKind.histogram (MetricKind.histogram, key) gen = true
      · simp only [snapStep, hr, Bool.not_true, Bool.false_eq_true, if_false] at h
        cases hu : distUpdate resolver st.dists (key_to_parts key).1
            (key_to_parts key).2 (histSamples hdl) with
        | none => rw [hu] at h; cases h
        | some ds =>
            rw [hu] at h
            rw [← Option.some.inj h]
      · rw [Bool.not_eq_true] at hr
        simp only [snapStep, hr, Bool.not_false, if_true] at h
        rw [← Option.some.inj h]

theorem snapFold_gauges_absent (recency : MetricKind → CompositeKey → Nat → Bool)
    (resolver : String → Option Distribution) (entries : List Entry)
    (n : String) (ls : List String) :
    ∀ (st st' : SnapState), snapFold recency resolver entries st = some st' →
      (∀ key gen hdl, ((MetricKind.gauge, key), gen, hdl) ∈ entries →
        key_to_parts key = (n, ls) →
        recency MetricKind.gauge (MetricKind.gauge, key) gen = false) →
      lookup2 st'.gauges n ls = lookup2 st.gauges n ls := by
  induction entries with
  | nil =>
      intro st st' h _
      simp only [snapFold, Option.some.injEq] at h
      rw [← h]
  | cons e rest ih =>
      intro st st' h hall
      simp only [snapFold] at h
      cases hs : snapStep recency resolver st e with
      | none => rw [hs] at h; cases h
      | some st1 =>
          rw [hs] at h
          have h1 := snapStep_gauges_preserve recency resolver st e st1 hs n ls
            (fun key gen hdl he hp => hall key gen hdl (by rw [he]; exact List.mem_cons_self _ _) hp)
          rw [ih st1 st' h
            (fun key gen hdl hm hp => hall key gen hdl (List.mem_cons_of_mem _ hm) hp), h1]


theorem mem_keysOf {α β : Type} (l : List (α × β)) (x : α) :
    x ∈ keysOf l ↔ ∃ v, (x, v) ∈ l := by
  simp [keysOf]

theorem setEntry_mem_pair {α β : Type} [DecidableEq α] (m : List (α × β)) (k : α) (v : β)
    (x : α) (w : β) (h : (x, w) ∈ setEntry m k v) : x = k ∨ (x, w) ∈ m := by
  induction m with
  | nil =>
      simp [setEntry] at h
      exact Or.inl h.1
  | cons p rest ih =>
      obtain ⟨k0, v0⟩ := p
      by_cases h0 : k0 = k
      · subst h0
        simp only [setEntry, if_pos rfl] at h
        rcases List.mem_cons.mp h with h1 | h1
        · exact Or.inl (congrArg Prod.fst h1)
        · exact Or.inr (List.mem_cons_of_mem _ h1)
      · simp only [setEntry, if_neg h0] at h
        rcases List.mem_cons.mp h with h1 | h1
        · exact Or.inr (by rw [h1]; exact List.mem_cons_self _ _)
        · rcases ih h1 with h2 | h2
          · exact Or.inl h2
          · exact Or.inr (List.mem_cons_of_mem _ h2)

theorem keysOf_setEntry_mem {α β : Type} [DecidableEq α] (m : List (α × β)) (k : α) (v : β)
    (x : α) (hx : x ∈ keysOf (setEntry m k v)) : x = k ∨ x ∈ keysOf m := by
  rcases (mem_keysOf _ _).mp hx with ⟨w, hw⟩
  rcases setEntry_mem_pair m k v x w hw with h1 | h1
  · exact Or.inl h1
  · exact Or.inr ((mem_keysOf _ _).mpr ⟨w, h1⟩)

theorem lookupA_eq_none_of_keys {α β : Type} [DecidableEq α] (m : List (α × β)) (k : α)
    (h : ∀ k' ∈ keysOf m, k' ≠ k) : lookupA m k = none := by
  induction m with
  | nil => rfl
  | cons p rest ih =>
      obtain ⟨k0, v0⟩ := p
      simp only [lookupA]
      rw [if_neg (h k0 ((mem_keysOf _ _).mpr ⟨v0, List.mem_cons_self _ _⟩))]
      exact ih (fun k' hk' => by
        rcases (mem_keysOf _ _).mp hk' with ⟨w, hw⟩
        exact h k' ((mem_keysOf _ _).mpr ⟨w, List.mem_cons_of_mem _ hw⟩))

theorem keysOf_setNested_mem {β : Type} (m : List (String × List (List String × β)))
    (n : String) (ls : List String) (v : β) (x : String)
    (hx : x ∈ keysOf (setNested m n ls v)) : x = n ∨ x ∈ keysOf m :=
  keysOf_setEntry_mem m n _ x hx


theorem snapStep_clean (recency : MetricKind → CompositeKey → Nat → Bool)
    (resolver : String → Option Distribution) (st : SnapState) (e : Entry)
    (st' : SnapState) (h : snapStep recency resolver st e = some st')
    (hc : ∀ k ∈ keysOf st.counters, containsSpecial k = false)
    (hg : ∀ k ∈ keysOf st.gauges, containsSpecial k = false)
    (hd : ∀ k ∈ keysOf st.dists, containsSpecial k = false) :
    (∀ k ∈ keysOf st'.counters, containsSpecial k = false) ∧
    (∀ k ∈ keysOf st'.gauges, containsSpecial k = false) ∧
    (∀ k ∈ keysOf st'.dists, containsSpecial k = false) := by
  obtain ⟨⟨kind, key⟩, gen, hdl⟩ := e
  cases kind with
  | counter =>
      by_cases hr : recency MetricKind.counter (MetricKind.counter, key) gen = true
      · rw [snapStep_counter_fresh recency resolver st key gen hdl hr] at h
        rw [← Option.some.inj h]
        refine ⟨?_, hg, hd⟩
        intro k hk
        rcases keysOf_setNested_mem _ _ _ _ k hk with h1 | h1
        · rw [h1]; exact sanitizeName_no_special key.name
        · exact hc k h1
      · rw [Bool.not_eq_true] at hr
        rw [snapStep_stale_skip recency resolver st _ key gen hdl (Or.inl rfl) hr] at h
        rw [← Option.some.inj h]
        exact ⟨hc, hg, hd⟩
  | gauge =>
      by_cases hr : recency MetricKind.gauge (MetricKind.gauge, key) gen = true
      · rw [snapStep_gauge_fresh recency resolver st key gen hdl hr] at h
        rw [← Option.some.inj h]
        refine ⟨hc, ?_, hd⟩
        intro k hk
        rcases keysOf_setNested_mem _ _ _ _ k hk with h1 | h1
        · rw [h1]; exact sanitizeName_no_special key.name
        · exact hg k h1
      · rw [Bool.not_eq_true] at hr
        rw [snapStep_stale_skip recency resolver st _ key gen hdl (Or.inr rfl) hr] at h
        rw [← Option.some.inj h]
        exact ⟨hc, hg, hd⟩
  | histogram =>
      by_cases hr : recency MetricKind.histogram (MetricKind.histogram, key) gen = true
      · simp only [snapStep, hr, Bool.not_true, Bool.false_eq_true, if_false] at h
        cases hu : distUpdate resolver st.dists (key_to_parts key).1
            (key_to_parts key).2 (histSamples hdl) with
        | none => rw [hu] at h; cases h
        | some ds =>
            rw [hu] at h
            rw [← Option.some.inj h]
            refine ⟨hc, hg, ?_⟩
            intro k hk
            unfold distUpdate at hu
            cases hi : lookupA ((lookupA st.dists (key_to_parts key).1).getD [])
                (key_to_parts key).2 with
            | some dOld =>
                rw [hi] at hu
                rw [← Option.some.inj hu] at hk
                rcases keysOf_setNested_mem _ _ _ _ k hk with h1 | h1
                · rw [h1]; exact sanitizeName_no_special key.name
                · exact hd k h1
            | none =>
                rw [hi] at hu
                cases hres : resolver (key_to_parts key).1 with
                | none => rw [hres] at hu; cases hu
                | some d0 =>
                    rw [hres] at hu
                    rw [← Option.some.inj hu] at hk
                    rcases keysOf_setNested_mem _ _ _ _ k hk with h1 | h1
                    · rw [h1]; exact sanitizeName_no_special key.name
                    · exact hd k h1
      · rw [Bool.not_eq_true] at hr
        simp only [snapStep, hr, Bool.not_false, if_true] at h
        rw [← Option.some.inj h]
        exact ⟨hc, hg, hd⟩

theorem snapFold_clean (recency : MetricKind → CompositeKey → Nat → Bool)
    (resolver : String → Option Distribution) (entries : List Entry) :
    ∀ (st st' : SnapState), snapFold recency resolver entries st = some st' →
      (∀ k ∈ keysOf st.counters, containsSpecial k = false) →
      (∀ k ∈ keysOf st.gauges, containsSpecial k = false) →
      (∀ k ∈ keysOf st.dists, containsSpecial k = false) →
      (∀ k ∈ keysOf st'.counters, containsSpecial k = false) ∧
      (∀ k ∈ keysOf st'.gauges, containsSpecial k = false) ∧
      (∀ k ∈ keysOf st'.dists, containsSpecial k = false) := by
  induction entries with
  | nil =>
      intro st st' h hc hg hd
      simp only [snapFold, Option.some.injEq] at h
      rw [← h]
      exact ⟨hc, hg, hd⟩
  | cons e rest ih =>
      intro st st' h hc hg hd
      simp only [snapFold] at h
      cases hs : snapStep recency resolver st e with
      | none => rw [hs] at h; cases h
      | some st1 =>
          rw [hs] at h
          obtain ⟨h1, h2, h3⟩ := snapStep_clean recency resolver st e st1 hs hc hg hd
          exact ih st1 st' h h1 h2 h3


theorem foldl_append_congr {α : Type} (l : List α) (f g : α → String)
    (h : ∀ x ∈ l, f x = g x) : ∀ init : String,
    l.foldl (fun acc x => acc ++ f x) init = l.foldl (fun acc x => acc ++ g x) init := by
  induction l with
  | nil => intro init; rfl
  | cons x rest ih =>
      intro init
      simp only [List.foldl]
      rw [h x (List.mem_cons_self _ _)]
      exact ih (fun y hy => h y (List.mem_cons_of_mem _ hy)) _

theorem strFoldlAppend (l : List String) : ∀ init : String,
    l.foldl (fun r s => r ++ s) init = init ++ l.foldl (fun r s => r ++ s) "" := by
  induction l with
  | nil => intro init; simp [List.foldl]
  | cons s rest ih =>
      intro init
      simp only [List.foldl]
      rw [ih (init ++ s), ih ("" ++ s)]
      simp [String.append_assoc]

theorem foldl_append_eq_join {α : Type} (l : List α) (f : α → String) :
    ∀ init : String,
    l.foldl (fun acc x => acc ++ f x) init = init ++ String.join (l.map f) := by
  induction l with
  | nil => intro init; simp [String.join]
  | cons x rest ih =>
      intro init
      simp only [List.foldl, List.map_cons]
      rw [ih (init ++ f x)]
      have hj : String.join (f x :: rest.map f) = f x ++ String.join (rest.map f) := by
        simp only [String.join, List.foldl]
        rw [strFoldlAppend (rest.map f) ("" ++ f x)]
        simp
      rw [hj, String.append_assoc]

theorem renderCounterBlock_no_desc (d : List (String × String)) (name : String)
    (b : List (List String × Nat)) (h : lookupA d name = none) :
    renderCounterBlock d name b = renderCounterBlock [] name b := by
  simp [renderCounterBlock, h, lookupA]

theorem renderGaugeBlock_no_desc (d : List (String × String)) (name : String)
    (b : List (List String × Rat)) (h : lookupA d name = none) :
    renderGaugeBlock d name b = renderGaugeBlock [] name b := by
  simp [renderGaugeBlock, h, lookupA]

theorem renderDistBlock_no_desc (d : List (String × String)) (name : String)
    (b : List (List String × Distribution)) (h : lookupA d name = none) :
    renderDistBlock d name b = renderDistBlock [] name b := by
  simp [renderDistBlock, h, lookupA]

theorem renderSnapshot_no_desc (d : List (String × String)) (snap : Snapshot)
    (h : ∀ name, (name ∈ keysOf snap.counters ∨ name ∈ keysOf snap.gauges ∨
      name ∈ keysOf snap.distributions) → lookupA d name = none) :
    renderSnapshot d snap = renderSnapshot [] snap := by
  unfold renderSnapshot
  rw [foldl_append_congr snap.counters _ (fun p => renderCounterBlock [] p.1 p.2)
    (fun p hp => renderCounterBlock_no_desc d p.1 p.2
      (h p.1 (Or.inl ((mem_keysOf _ _).mpr ⟨p.2, by simpa using hp⟩))))]
  rw [foldl_append_congr snap.gauges _ (fun p => renderGaugeBlock [] p.1 p.2)
    (fun p hp => renderGaugeBlock_no_desc d p.1 p.2
      (h p.1 (Or.inr (Or.inl ((mem_keysOf _ _).mpr ⟨p.2, by simpa using hp⟩)))))]
  rw [foldl_append_congr snap.distributions _ (fun p => renderDistBlock [] p.1 p.2)
    (fun p hp => renderDistBlock_no_desc d p.1 p.2
      (h p.1 (Or.inr (Or.inr ((mem_keysOf _ _).mpr ⟨p.2, by simpa using hp⟩)))))]


theorem lookupA_append {α β : Type} [DecidableEq α] (m1 m2 : List (α × β)) (k : α) :
    lookupA (m1 ++ m2) k =
      match lookupA m1 k with
      | some v => some v
      | none => lookupA m2 k := by
  induction m1 with
  | nil => simp [lookupA]
  | cons p rest ih =>
      obtain ⟨k0, v0⟩ := p
      by_cases h0 : k0 = k
      · simp [lookupA, h0]
      · simp [lookupA, h0, ih]


/-- C2: the distributions map of every Snapshot produced by
`get_recent_metrics` is the full current content of the Distribution Store;
once a Distribution exists for a (name, label-set) pair it appears in every
subsequent Snapshot — even when it received no samples, and for any recency
filter whatsoever — and it is never recreated: the value found is the
original Distribution with zero or more sample batches recorded into it. -/
theorem claim_C2 (recency : MetricKind → CompositeKey → Nat → Bool)
    (resolver : String → Option Distribution) (entries : List Entry)
    (dists0 : NestedMap Distribution) (snap : Snapshot)
    (h : get_recent_metrics recency resolver entries dists0 = some snap)
    (n : String) (ls : List String) (d : Distribution)
    (hd : lookup2 dists0 n ls = some d) :
    ∃ batches : List (List Nat),
      lookup2 snap.distributions n ls =
        some (batches.foldl (fun a b => Distribution.record_samples a b) d) := by
  unfold get_recent_metrics at h
  cases hf : snapFold recency resolver entries
      { counters := [], gauges := [], dists := dists0 } with
  | none => rw [hf] at h; cases h
  | some st =>
      rw [hf] at h
      have hev := snapFold_dists_evolve recency resolver entries _ st hf n ls d hd
      rw [← Option.some.inj h]
      exact hev

/-- Witness for C2 at a concrete input: an empty scrape pass keeps a
pre-existing distribution in the snapshot untouched. -/
theorem claim_C2_witness :
    ∃ batches : List (List Nat),
      lookup2 (Snapshot.mk [] []
          [("h", [(["a=\"1\""], Distribution.summary [] [] 0)])]).distributions
        "h" ["a=\"1\""] =
      some (batches.foldl (fun a b => Distribution.record_samples a b)
        (Distribution.summary [] [] 0)) :=
  claim_C2 (fun _ _ _ => false) (fun _ => none) []
    [("h", [(["a=\"1\""], Distribution.summary [] [] 0)])] _ rfl "h" ["a=\"1\""] _ rfl


/-- C3: every caller-provided label value is escaped and wrapped in double
quotes with order preserved (`key_to_parts`); a synthesized label is
appended after the caller labels, its value wrapped in double quotes
(`write_metric_line`); and every value the renderer synthesizes (`le`
boundaries and `quantile` values via `fmtF64`, counts via `natRepr`, the
literal `+Inf`) is a fixed point of the escaping, so all label values in
the rendered output appear escaped. -/
theorem claim_C3 :
    (∀ key : Key, (key_to_parts key).2 =
        key.labels.map (fun p => p.1 ++ "=\"" ++ escapeLabelValue p.2 ++ "\"")) ∧
    (∀ (name : String) (sfx : Option String) (labels : List String) (k av v : String),
        write_metric_line name sfx labels (some (k, av)) v =
          name ++ suffixStr sfx ++ "\x7b" ++ joinComma labels
            ++ (if labels.isEmpty then "" else ",") ++ k ++ "=\"" ++ av ++ "\""
            ++ "\x7d" ++ " " ++ v ++ "\n") ∧
    (∀ q : Rat, escapeLabelValue (fmtF64 q) = fmtF64 q) ∧
    (∀ n : Nat, escapeLabelValue (natRepr n) = natRepr n) ∧
    escapeLabelValue "+Inf" = "+Inf" :=
  ⟨fun _ => rfl, wml_some, escape_fmtF64, escape_natRepr, rfl⟩

/-- C6: the first registration supplying a description for a name stores
it, later registrations (same or different text) never overwrite it, and a
registration with no description leaves the table unchanged; the operation
is a total function (never fails). -/
theorem claim_C6 (d : List (String × String)) (name t t' : String) :
    (lookupA d name = none →
      lookupA (add_description_if_missing d name (some t)) name = some t) ∧
    (∀ s, lookupA d name = some s →
      add_description_if_missing d name (some t') = d) ∧
    add_description_if_missing d name none = d := by
  refine ⟨?_, ?_, rfl⟩
  · intro h
    unfold add_description_if_missing
    rw [h]
    simp only [Option.isSome_none, Bool.false_eq_true, if_false]
    rw [lookupA_append, h]
    simp [lookupA]
  · intro s h
    unfold add_description_if_missing
    rw [h]
    simp

/-- Witness for C6: register("http_requests", "A") then
register("http_requests", "B") leaves "A" stored. -/
theorem claim_C6_witness :
    lookupA (add_description_if_missing
      (add_description_if_missing [] "http_requests" (some "A"))
      "http_requests" (some "B")) "http_requests" = some "A" := by
  rw [(claim_C6 (add_description_if_missing [] "http_requests" (some "A"))
    "http_requests" "A" "B").2.1 "A" (by rfl)]
  exact (claim_C6 [] "http_requests" "A" "B").1 rfl

/-- C7: metric-name sanitization replaces exactly the characters
`. = \x7b \x7d + -` with `_` characterwise (so `my.metric-name+x` becomes
`my_metric_name_x`), the sanitized name contains none of those characters,
and label keys and values are not subjected to this replacement: keys pass
through `key_to_parts` verbatim and label-value escaping is the identity on
every string free of backslash, double quote and newline, in particular on
strings containing the sanitized characters. -/
theorem claim_C7 :
    ((key_to_parts { name := "my.metric-name+x", labels := [] }).1 = "my_metric_name_x") ∧
    (∀ (n : String) (ls : List (String × String)),
        key_to_parts { name := n, labels := ls } =
          (sanitizeName n, ls.map (fun p => p.1 ++ "=\"" ++ escapeLabelValue p.2 ++ "\""))) ∧
    (∀ s : String, (sanitizeName s).data =
        s.data.map (fun c => if isSanitizeChar c then '_' else c)) ∧
    (∀ s : String, containsSpecial (sanitizeName s) = false) ∧
    (∀ v : String, (∀ c ∈ v.data, isEscapeChar c = false) → escapeLabelValue v = v) :=
  ⟨rfl, fun _ _ => rfl, fun _ => rfl, sanitizeName_no_special, escape_eq_self⟩

/-- Witness for C7: a label value full of name-sanitized characters passes
through the label pipeline unchanged. -/
theorem claim_C7_witness :
    escapeLabelValue "a.b=c\x7bd\x7d+e-f" = "a.b=c\x7bd\x7d+e-f" :=
  claim_C7.2.2.2.2 "a.b=c\x7bd\x7d+e-f" (by decide)

/-- C9: a sample line with an empty label set and no synthesized label
omits the braces entirely (`<name> <value>`); with a non-empty label set
the labels appear comma-separated inside one brace pair. -/
theorem claim_C9 :
    (∀ (name v : String),
        write_metric_line name none [] none v = name ++ " " ++ v ++ "\n") ∧
    (∀ (name : String) (labels : List String) (v : String), labels ≠ [] →
        write_metric_line name none labels none v =
          name ++ "\x7b" ++ joinComma labels ++ "\x7d" ++ " " ++ v ++ "\n") := by
  constructor
  · intro name v
    have h := wml_none_nil name none v
    simpa [suffixStr] using h
  · intro name labels v hne
    have h := wml_none_cons name none labels v hne
    simpa [suffixStr] using h

/-- Witness for C9: a two-label counter line carries one brace pair with
comma-separated labels. -/
theorem claim_C9_witness :
    write_metric_line "c" none ["a=\"1\"", "b=\"2\""] none "7"
      = "c\x7ba=\"1\",b=\"2\"\x7d 7\n" := by
  rw [claim_C9.2 "c" ["a=\"1\"", "b=\"2\""] "7" (by decide)]
  rfl


/-- C1: refuted on the code — for a histogram (or summary) name the TYPE
line is written inside the per-label-set loop of `Inner::render`, so a
distributions map holding one single name `"h"` with two label-sets renders
two `# TYPE h histogram` lines, not one.  (Counter and gauge families do
get exactly one TYPE line per name.) -/
theorem claim_C1 :
    keysOf (Snapshot.mk [] []
        [("h", [(["a=\"1\""], Distribution.histogram (Hist.mk [] 0 0)),
                (["a=\"2\""], Distribution.histogram (Hist.mk [] 0 0))])]).distributions
      = ["h"] ∧
    ((splitLines (renderSnapshot [] (Snapshot.mk [] []
        [("h", [(["a=\"1\""], Distribution.histogram (Hist.mk [] 0 0)),
                (["a=\"2\""], Distribution.histogram (Hist.mk [] 0 0))])]))).filter
      (fun l => l == "# TYPE h histogram")).length = 2 := by
  constructor
  · rfl
  · rfl

/-- C8: a fresh histogram entry whose (name, label-set) has no existing
Distribution and whose name the distribution-configuration resolver cannot
resolve makes the whole scrape fail hard (the `expect` panic, modelled as
`none`): no Snapshot is produced, so the sample is not silently dropped
into corrupted state. -/
theorem claim_C8 (recency : MetricKind → CompositeKey → Nat → Bool)
    (resolver : String → Option Distribution) (pre post : List Entry)
    (key : Key) (gen : Nat) (hdl : Handle)
    (dists0 : NestedMap Distribution) (st : SnapState)
    (hpre : snapFold recency resolver pre
      { counters := [], gauges := [], dists := dists0 } = some st)
    (hfresh : recency MetricKind.histogram (MetricKind.histogram, key) gen = true)
    (hnew : lookup2 st.dists (key_to_parts key).1 (key_to_parts key).2 = none)
    (hres : resolver (key_to_parts key).1 = none) :
    get_recent_metrics recency resolver
      (pre ++ ((MetricKind.histogram, key), gen, hdl) :: post) dists0 = none := by
  unfold get_recent_metrics
  rw [snapFold_append, hpre]
  have hstep : snapStep recency resolver st ((MetricKind.histogram, key), gen, hdl) = none := by
    simp only [snapStep, hfresh, Bool.not_true, Bool.false_eq_true, if_false]
    unfold distUpdate
    rw [lookup2_eq_getD] at hnew
    rw [hnew, hres]
  simp only [snapFold, hstep]

/-- Witness for C8: one fresh unresolvable histogram entry aborts the
scrape. -/
theorem claim_C8_witness :
    get_recent_metrics (fun _ _ _ => true) (fun _ => none)
      [((MetricKind.histogram, Key.mk "lat" []), 0, Handle.histogram [5])] [] = none :=
  claim_C8 (fun _ _ _ => true) (fun _ => none) [] [] (Key.mk "lat" []) 0
    (Handle.histogram [5]) [] { counters := [], gauges := [], dists := [] }
    rfl rfl rfl rfl


/-- C4: a counter or gauge entry the Recency Filter reports stale is
skipped entirely — the pass state is returned unchanged and no error is
raised; if every counter (resp. gauge) entry for a (name, label-set) is
stale, that pair is absent from the Snapshot's counters (resp. gauges)
map; and a fresh counter (resp. gauge) entry has its atomic value read and
inserted under its (name, label-set) with last-write-wins, the other maps
untouched. -/
theorem claim_C4 :
    (∀ (recency : MetricKind → CompositeKey → Nat → Bool)
        (resolver : String → Option Distribution) (st : SnapState)
        (kind : MetricKind) (key : Key) (gen : Nat) (hdl : Handle),
        (kind = MetricKind.counter ∨ kind = MetricKind.gauge) →
        recency kind (kind, key) gen = false →
        snapStep recency resolver st ((kind, key), gen, hdl) = some st) ∧
    (∀ (recency : MetricKind → CompositeKey → Nat → Bool)
        (resolver : String → Option Distribution) (st : SnapState)
        (key : Key) (gen : Nat) (hdl : Handle),
        recency MetricKind.counter (MetricKind.counter, key) gen = true →
        ∃ st', snapStep recency resolver st ((MetricKind.counter, key), gen, hdl) = some st' ∧
          lookup2 st'.counters (key_to_parts key).1 (key_to_parts key).2
            = some (readCounter hdl) ∧
          st'.gauges = st.gauges ∧ st'.dists = st.dists) ∧
    (∀ (recency : MetricKind → CompositeKey → Nat → Bool)
        (resolver : String → Option Distribution) (st : SnapState)
        (key : Key) (gen : Nat) (hdl : Handle),
        recency MetricKind.gauge (MetricKind.gauge, key) gen = true →
        ∃ st', snapStep recency resolver st ((MetricKind.gauge, key), gen, hdl) = some st' ∧
          lookup2 st'.gauges (key_to_parts key).1 (key_to_parts key).2
            = some (readGauge hdl) ∧
          st'.counters = st.counters ∧ st'.dists = st.dists) ∧
    (∀ (recency : MetricKind → CompositeKey → Nat → Bool)
        (resolver : String → Option Distribution) (entries : List Entry)
        (dists0 : NestedMap Distribution) (snap : Snapshot) (n : String) (ls : List String),
        get_recent_metrics recency resolver entries dists0 = some snap →
        (∀ key gen hdl, ((MetricKind.counter, key), gen, hdl) ∈ entries →
          key_to_parts key = (n, ls) →
          recency MetricKind.counter (MetricKind.counter, key) gen = false) →
        lookup2 snap.counters n ls = none) ∧
    (∀ (recency : MetricKind → CompositeKey → Nat → Bool)
        (resolver : String → Option Distribution) (entries : List Entry)
        (dists0 : NestedMap Distribution) (snap : Snapshot) (n : String) (ls : List String),
        get_recent_metrics recency resolver entries dists0 = some snap →
        (∀ key gen hdl, ((MetricKind.gauge, key), gen, hdl) ∈ entries →
          key_to_parts key = (n, ls) →
          recency MetricKind.gauge (MetricKind.gauge, key) gen = false) →
        lookup2 snap.gauges n ls = none) := by
  refine ⟨snapStep_stale_skip, ?_, ?_, ?_, ?_⟩
  · intro recency resolver st key gen hdl hr
    refine ⟨_, snapStep_counter_fresh recency resolver st key gen hdl hr, ?_, rfl, rfl⟩
    exact lookup2_setNested_self _ _ _ _
  · intro recency resolver st key gen hdl hr
    refine ⟨_, snapStep_gauge_fresh recency resolver st key gen hdl hr, ?_, rfl, rfl⟩
    exact lookup2_setNested_self _ _ _ _
  · intro recency resolver entries dists0 snap n ls h hall
    unfold get_recent_metrics at h
    cases hf : snapFold recency resolver entries
        { counters := [], gauges := [], dists := dists0 } with
    | none => rw [hf] at h; cases h
    | some st =>
        rw [hf] at h
        rw [← Option.some.inj h]
        rw [snapFold_counters_absent recency resolver entries n ls _ st hf hall]
        rfl
  · intro recency resolver entries dists0 snap n ls h hall
    unfold get_recent_metrics at h
    cases hf : snapFold recency resolver entries
        { counters := [], gauges := [], dists := dists0 } with
    | none => rw [hf] at h; cases h
    | some st =>
        rw [hf] at h
        rw [← Option.some.inj h]
        rw [snapFold_gauges_absent recency resolver entries n ls _ st hf hall]
        rfl

/-- Witness for C4 at concrete inputs: a stale counter entry is a no-op for
the pass, an all-stale enumeration leaves the (name, label-set) absent from
the snapshot counters map, and a fresh counter entry is inserted with its
read value. -/
theorem claim_C4_witness :
    snapStep (fun _ _ _ => false) (fun _ => none)
      { counters := [], gauges := [], dists := [] }
      ((MetricKind.counter, Key.mk "req" [("m", "G")]), 0, Handle.counter 5)
      = some { counters := [], gauges := [], dists := [] } ∧
    lookup2 (Snapshot.mk [] [] []).counters "req" ["m=\"G\""] = none ∧
    (∃ st', snapStep (fun _ _ _ => true) (fun _ => none)
        { counters := [], gauges := [], dists := [] }
        ((MetricKind.counter, Key.mk "req" [("m", "G")]), 0, Handle.counter 5) = some st' ∧
      lookup2 st'.counters (key_to_parts (Key.mk "req" [("m", "G")])).1
        (key_to_parts (Key.mk "req" [("m", "G")])).2 = some (readCounter (Handle.counter 5)) ∧
      st'.gauges = ({ counters := [], gauges := [], dists := [] } : SnapState).gauges ∧
      st'.dists = ({ counters := [], gauges := [], dists := [] } : SnapState).dists) := by
  refine ⟨?_, ?_, ?_⟩
  · exact claim_C4.1 (fun _ _ _ => false) (fun _ => none) _ MetricKind.counter
      (Key.mk "req" [("m", "G")]) 0 (Handle.counter 5) (Or.inl rfl) rfl
  · exact claim_C4.2.2.2.1 (fun _ _ _ => false) (fun _ => none)
      [((MetricKind.counter, Key.mk "req" [("m", "G")]), 0, Handle.counter 5)] []
      (Snapshot.mk [] [] []) "req" ["m=\"G\""] rfl
      (fun _ _ _ _ _ => rfl)
  · exact claim_C4.2.1 (fun _ _ _ => true) (fun _ => none) _
      (Key.mk "req" [("m", "G")]) 0 (Handle.counter 5) rfl


/-- C5: a rendered histogram series consists of one bucket line per
configured boundary, in the stored (ascending, per the configuration
contract) order, then one final bucket line with `le="+Inf"`, then a
`_sum` line and a `_count` line; the value written on the `le="+Inf"`
bucket line is the same string as the value written on the `_count` line
(both are the distribution's total count). -/
theorem claim_C5 (name : String) (labels : List String) (h : Hist)
    (_hAsc : List.Chain' (fun a b : Rat => a ≤ b) (h.buckets.map Prod.fst)) :
    ∃ v : String,
      renderDistSeries name labels (Distribution.histogram h) =
        write_type_line name "histogram"
        ++ String.join (h.buckets.map (fun p =>
            write_metric_line name (some "bucket") labels
              (some ("le", fmtF64 p.1)) (natRepr p.2)))
        ++ write_metric_line name (some "bucket") labels (some ("le", "+Inf")) v
        ++ write_metric_line name (some "sum") labels none (natRepr h.sum)
        ++ write_metric_line name (some "count") labels none v
      ∧ v = natRepr h.count := by
  refine ⟨natRepr h.count, ?_, rfl⟩
  simp only [renderDistSeries]
  rw [foldl_append_eq_join]
  simp [String.append_assoc]

/-- Witness for C5 at a concrete two-bucket histogram with ascending
boundaries. -/
theorem claim_C5_witness :
    ∃ v : String,
      renderDistSeries "lat" ["r=\"a\""]
          (Distribution.histogram (Hist.mk [(10, 1), (50, 2)] 1024 3)) =
        write_type_line "lat" "histogram"
        ++ String.join (((Hist.mk [(10, 1), (50, 2)] 1024 3).buckets).map (fun p =>
            write_metric_line "lat" (some "bucket") ["r=\"a\""]
              (some ("le", fmtF64 p.1)) (natRepr p.2)))
        ++ write_metric_line "lat" (some "bucket") ["r=\"a\""] (some ("le", "+Inf")) v
        ++ write_metric_line "lat" (some "sum") ["r=\"a\""] none
            (natRepr (Hist.mk [(10, 1), (50, 2)] 1024 3).sum)
        ++ write_metric_line "lat" (some "count") ["r=\"a\""] none v
      ∧ v = natRepr (Hist.mk [(10, 1), (50, 2)] 1024 3).count :=
  claim_C5 "lat" ["r=\"a\""] (Hist.mk [(10, 1), (50, 2)] 1024 3)
    (List.chain'_cons.mpr ⟨by norm_num, List.chain'_singleton 50⟩)


/-- C10: descriptions are stored under the original (unsanitized) name
while `render` looks help text up under sanitized snapshot names, so a
description registered for any name containing a sanitized character can
never produce a HELP line: (1) `add_description_if_missing` stores under
the given name itself; (2) it keeps a table whose keys all contain
sanitized characters in that state; (3) no sanitized name ever equals a
name containing a sanitized character; (4) hence rendering any snapshot
built by `get_recent_metrics` (over a store whose names are sanitized)
with such a table is identical to rendering with an empty table — no HELP
line is contributed. -/
theorem claim_C10 :
    (∀ (d : List (String × String)) (n t : String), lookupA d n = none →
        lookupA (add_description_if_missing d n (some t)) n = some t) ∧
    (∀ (d : List (String × String)) (n : String) (t : Option String),
        (∀ k ∈ keysOf d, containsSpecial k = true) → containsSpecial n = true →
        ∀ k ∈ keysOf (add_description_if_missing d n t), containsSpecial k = true) ∧
    (∀ orig : String, containsSpecial orig = true → ∀ s : String, sanitizeName s ≠ orig) ∧
    (∀ (recency : MetricKind → CompositeKey → Nat → Bool)
        (resolver : String → Option Distribution) (entries : List Entry)
        (dists0 : NestedMap Distribution) (d : List (String × String)) (snap : Snapshot),
        get_recent_metrics recency resolver entries dists0 = some snap →
        (∀ k ∈ keysOf dists0, containsSpecial k = false) →
        (∀ k ∈ keysOf d, containsSpecial k = true) →
        renderSnapshot d snap = renderSnapshot [] snap) := by
  refine ⟨?_, ?_, ?_, ?_⟩
  · intro d n t h
    unfold add_description_if_missing
    rw [h]
    simp only [Option.isSome_none, Bool.false_eq_true, if_false]
    rw [lookupA_append, h]
    simp [lookupA]
  · intro d n t hd hn k hk
    cases t with
    | none => exact hd k hk
    | some tv =>
        unfold add_description_if_missing at hk
        dsimp only at hk
        by_cases hs : (lookupA d n).isSome
        · rw [if_pos hs] at hk
          exact hd k hk
        · rw [if_neg hs] at hk
          rcases (mem_keysOf _ _).mp hk with ⟨w, hw⟩
          rcases List.mem_append.mp hw with h1 | h1
          · exact hd k ((mem_keysOf _ _).mpr ⟨w, h1⟩)
          · have : k = n ∧ w = tv := by simpa using h1
            rw [this.1]
            exact hn
  · exact sanitizeName_ne_of_special
  · intro recency resolver entries dists0 d snap h hclean hspec
    unfold get_recent_metrics at h
    cases hf : snapFold recency resolver entries
        { counters := [], gauges := [], dists := dists0 } with
    | none => rw [hf] at h; cases h
    | some st =>
        rw [hf] at h
        obtain ⟨h1, h2, h3⟩ := snapFold_clean recency resolver entries _ st hf
          (fun k hk => by simp [keysOf] at hk)
          (fun k hk => by simp [keysOf] at hk) hclean
        apply renderSnapshot_no_desc
        intro name hm
        apply lookupA_eq_none_of_keys
        intro k' hk' he
        have hkt := hspec k' hk'
        rw [he] at hkt
        have hnf : containsSpecial name = false := by
          rw [← Option.some.inj h] at hm
          rcases hm with hmc | hmg | hmd
          · exact h1 name hmc
          · exact h2 name hmg
          · exact h3 name hmd
        rw [hnf] at hkt
        cases hkt

/-- Witness for C10: with the single description registered under the
original name `my.metric`, rendering the snapshot of a fresh scrape of
that counter (whose snapshot name is the sanitized `my_metric`) produces
exactly the output of an empty description table. -/
theorem claim_C10_witness :
    renderSnapshot [("my.metric", "helptext")]
        (Snapshot.mk [("my_metric", [([], 7)])] [] [])
      = renderSnapshot [] (Snapshot.mk [("my_metric", [([], 7)])] [] []) :=
  claim_C10.2.2.2 (fun _ _ _ => true) (fun _ => none)
    [((MetricKind.counter, Key.mk "my.metric" []), 0, Handle.counter 7)] []
    [("my.metric", "helptext")] (Snapshot.mk [("my_metric", [([], 7)])] [] [])
    rfl (by simp [keysOf]) (by decide)

end MetricsProm
